import Mathlib

/-!
Verification development for the LLM-council backend
(`backend/openrouter.py`, `backend/council.py`, `backend/main.py`).

The Python code is shallowly embedded:

* Python strings are `List Char` (`Text`); regular-expression character
  classes `\d` and `\s` are modelled by their ASCII subsets (the inputs the
  pipeline handles are ASCII-labelled ranking texts).
* `query_model`'s network interaction is modelled by an environment
  `Nat → Outcome` giving the remote outcome of each retry-loop iteration;
  sleeps and the wait-time bookkeeping that only feeds log/message strings
  are elided, error payload message strings are elided (kind, status and
  model are kept).
* Python `dict`s are association lists in insertion order; `dict[k] = v`,
  `defaultdict` reads and insertion-ordered iteration are modelled
  explicitly.
* wall-clock time is an explicit rational-number parameter; sleeping for
  `w` seconds advances it by `w`.
-/

namespace Council

abbrev Text := List Char

/-- `leadsWith needle hay`: `hay` starts with `needle` (Python `startswith`). -/
def leadsWith : Text → Text → Bool
  | [], _ => true
  | _ :: _, [] => false
  | a :: as, b :: bs => a = b && leadsWith as bs

/-- Python `needle in hay` substring test. -/
def containsTok (needle : Text) : Text → Bool
  | [] => needle.isEmpty
  | c :: rest => leadsWith needle (c :: rest) || containsTok needle rest

/-- Python `hay.endswith(needle)`. -/
def endsWithTok (needle hay : Text) : Bool :=
  leadsWith needle.reverse hay.reverse

/-- Fuelled worker for Python `str.split(sep)` (non-overlapping, left to
right; the fuel is the text length, enough since every step consumes at
least one character). -/
def pySplitAux (sep : Text) : Nat → Text → Text → List Text
  | _, acc, [] => [acc.reverse]
  | 0, acc, rest => [acc.reverse ++ rest]
  | n + 1, acc, c :: rest =>
    if leadsWith sep (c :: rest) then
      acc.reverse :: pySplitAux sep n [] (List.drop sep.length (c :: rest))
    else
      pySplitAux sep n (c :: acc) rest

/-- Python `t.split(sep)` for a non-empty separator. -/
def pySplit (sep t : Text) : List Text :=
  pySplitAux sep t.length [] t

/-- The text after the first occurrence of `sep` (everything, not stopping
at later occurrences); `[]` if `sep` does not occur. -/
def afterFirstTok (sep : Text) : Text → Text
  | [] => []
  | c :: rest =>
    if leadsWith sep (c :: rest) then List.drop sep.length (c :: rest)
    else afterFirstTok sep rest

/-- The text before the first occurrence of `sep` (the whole text if `sep`
does not occur). -/
def upToTok (sep : Text) : Text → Text
  | [] => []
  | c :: rest =>
    if leadsWith sep (c :: rest) then []
    else c :: upToTok sep rest

/-- The `[A-Z]` character class of the ranking regexes. -/
def isUpr (c : Char) : Bool := decide (65 ≤ c.toNat ∧ c.toNat ≤ 90)

/-- ASCII model of the `\d` character class. -/
def isDig (c : Char) : Bool := decide (48 ≤ c.toNat ∧ c.toNat ≤ 57)

/-- ASCII model of the `\s` character class. -/
def isWsp (c : Char) : Bool :=
  c = ' ' || c = '\t' || c = '\n' || c = '\r' || c = '\x0b' || c = '\x0c'

/-- The literal `"Response "` that both ranking regexes contain. -/
def respMark : Text := "Response ".toList

/-- A label `"Response X"` for an uppercase letter `X`. -/
def respLabel (c : Char) : Text := respMark ++ [c]

/-- Try to match the regex `Response [A-Z]` at the start of `s`; on success
return the matched text and the remainder after the match. -/
def matchResp (s : Text) : Option (Text × Text) :=
  if leadsWith respMark s then
    match List.drop respMark.length s with
    | u :: rest => if isUpr u then some (respLabel u, rest) else none
    | [] => none
  else none

/-- All non-overlapping matches of `Response [A-Z]` in textual order
(Python `re.findall(r'Response [A-Z]', ·)`); fuelled by the text length. -/
def findResp : Nat → Text → List Text
  | 0, _ => []
  | _, [] => []
  | n + 1, c :: rest =>
    match matchResp (c :: rest) with
    | some (m, after) => m :: findResp n after
    | none => findResp n rest

/-- First match of `Response [A-Z]` in `s`
(Python `re.search(r'Response [A-Z]', ·)`); fuelled by the text length. -/
def searchResp : Nat → Text → Option Text
  | 0, _ => none
  | _, [] => none
  | n + 1, c :: rest =>
    match matchResp (c :: rest) with
    | some (m, _) => some m
    | none => searchResp n rest

/-- Try to match the regex `\d+\.\s*Response [A-Z]` at the start of `s`
(greedy digit and whitespace runs; no backtracking is needed because a
digit cannot be `'.'` and a whitespace cannot be `'R'`). -/
def matchNumbered (s : Text) : Option (Text × Text) :=
  let ds := s.takeWhile isDig
  if ds.isEmpty then none
  else
    match s.dropWhile isDig with
    | '.' :: r2 =>
      let ws := r2.takeWhile isWsp
      match matchResp (r2.dropWhile isWsp) with
      | some (m, after) => some (ds ++ '.' :: (ws ++ m), after)
      | none => none
    | _ => none

/-- All non-overlapping matches of `\d+\.\s*Response [A-Z]` in textual
order (Python `re.findall(r'\d+\.\s*Response [A-Z]', ·)`). -/
def findNumbered : Nat → Text → List Text
  | 0, _ => []
  | _, [] => []
  | n + 1, c :: rest =>
    match matchNumbered (c :: rest) with
    | some (m, after) => m :: findNumbered n after
    | none => findNumbered n rest

/-- The literal marker `"FINAL RANKING:"`. -/
def finalMarker : Text := "FINAL RANKING:".toList

/-- `council.parse_ranking_from_text` (council.py:244-275): split on the
marker, take `parts[1]`, extract the numbered matches' label portions, or
fall back to all `Response [A-Z]` occurrences; with no marker (or fewer
than two split parts) fall back to the whole text. -/
def parse_ranking_from_text (t : Text) : List Text :=
  if containsTok finalMarker t then
    let ps := pySplit finalMarker t
    if 2 ≤ ps.length then
      let sec := (ps.get? 1).getD []
      let nm := findNumbered sec.length sec
      if ¬ nm.isEmpty then
        nm.map (fun m => (searchResp m.length m).getD [])
      else
        findResp sec.length sec
    else
      findResp t.length t
  else
    findResp t.length t

/-! ### Model client (`openrouter.py`) -/

/-- Error classification labels of `query_model`'s failure payloads
(openrouter.py:266, 288, 301, 312). -/
inductive ErrKind where
  | notFound
  | badRequest
  | serverError
  | clientError
  | timedOut
  | unknown
  | retryExhausted
deriving DecidableEq

/-- Token usage counters extracted on success (openrouter.py:239-243). -/
structure Usage where
  prompt_tokens : Nat
  completion_tokens : Nat
  total_tokens : Nat
deriving DecidableEq

/-- The dict `query_model` returns: a success payload (content, optional
reasoning trace, usage) or an `'error'` payload (kind, status, model);
error message strings are elided. -/
inductive ModelResponse where
  | ok (content : Option Text) (reasoning : Option Text) (usage : Usage)
  | err (kind : ErrKind) (status : Option Nat) (model : String)
deriving DecidableEq

/-- Python `response.get('content', '')` on the returned dict: a success
dict stores `content` (possibly Python `None`); an error dict has no
`'content'` key, so the default `''` is returned. -/
def pyGetContent : ModelResponse → Option Text
  | .ok c _ _ => c
  | .err _ _ _ => some []

/-- `error_type` classification for non-retryable HTTP status codes
(openrouter.py:266). -/
def classifyStatus : Option Nat → ErrKind
  | some 404 => .notFound
  | some 400 => .badRequest
  | some s => if 500 ≤ s then .serverError else .clientError
  | none => .clientError

/-- The remote outcome of one retry-loop iteration of `query_model`:
an HTTP 429 (with the wait the rate-limit headers declare, if any), some
other HTTP error status raised by `raise_for_status`, a client-side
timeout, a parsed success, or an unexpected exception. -/
inductive Outcome where
  | http429 (waitHeader : Option ℚ)
  | httpError (status : Nat)
  | timedOut
  | success (content : Option Text) (reasoning : Option Text) (usage : Usage)
  | unexpected

/-- The `while attempt < max_retries` loop of `query_model`
(openrouter.py:169-319), with `fuel = max_retries - attempt`.  Returns the
Python return value together with the number of loop iterations executed.

* 429: increment `attempt`; if retries remain, sleep and continue
  (openrouter.py:205-216); otherwise the code raises an
  `HTTPStatusError` which its own `except` clause catches and classifies
  as a permanent error with status 429 (openrouter.py:219-276).
* other HTTP errors: 502/503 retry with backoff while retries remain,
  everything else (including an exhausted 502/503) returns a permanent
  error classified from the status (openrouter.py:246-276).
* timeout: retry while retries remain, else a `timeout` error
  (openrouter.py:277-293).
* success returns the parsed payload; an unexpected exception returns an
  `unknown` error (openrouter.py:236-244, 294-305).
* the `fuel = 0` case is Python's fall-through after the loop
  (openrouter.py:307-319), reachable only when `max_retries = 0`. -/
def query_loop (env : Nat → Outcome) (model : String) (maxRetries : Nat) :
    Nat → Nat → Option (Option Nat) → Option ModelResponse × Nat
  | 0, _, lastErr =>
    (match lastErr with
     | none => none
     | some st => some (.err .retryExhausted st model), 0)
  | fuel + 1, attempt, lastErr =>
    match env attempt with
    | .success c r u => (some (.ok c r u), 1)
    | .unexpected => (some (.err .unknown none model), 1)
    | .http429 _ =>
      if attempt + 1 < maxRetries then
        let r := query_loop env model maxRetries fuel (attempt + 1) lastErr
        (r.1, r.2 + 1)
      else
        (some (.err (classifyStatus (some 429)) (some 429) model), 1)
    | .timedOut =>
      if attempt + 1 < maxRetries then
        let r := query_loop env model maxRetries fuel (attempt + 1) (some none)
        (r.1, r.2 + 1)
      else
        (some (.err .timedOut none model), 1)
    | .httpError s =>
      if (s = 502 ∨ s = 503) ∧ attempt + 1 < maxRetries then
        let r := query_loop env model maxRetries fuel (attempt + 1) (some (some s))
        (r.1, r.2 + 1)
      else
        (some (.err (classifyStatus (some s)) (some s) model), 1)

/-- `openrouter.query_model` (openrouter.py:124-319) run against the
outcome environment `env`, together with the iteration count. -/
def query_model_run (env : Nat → Outcome) (model : String) (maxRetries : Nat) :
    Option ModelResponse × Nat :=
  query_loop env model maxRetries maxRetries 0 none

/-- `query_model`'s Python return value. -/
def query_model (env : Nat → Outcome) (model : String) (maxRetries : Nat) :
    Option ModelResponse :=
  (query_model_run env model maxRetries).1

/-! ### Rate limiter (`openrouter.py:12-48`) -/

/-- Python `dict` assignment `d[k] = v` on an insertion-ordered
association list. -/
def dictSetTime : List (String × ℚ) → String → ℚ → List (String × ℚ)
  | [], k, v => [(k, v)]
  | (k', v') :: rest, k, v =>
    if k' = k then (k', v) :: rest else (k', v') :: dictSetTime rest k v

/-- `FreeModelRateLimiter`'s state: the configured minimum interval and
the `defaultdict(float)` of last request times. -/
structure RateLimiterState where
  min_interval : ℚ
  last_request_time : List (String × ℚ)
deriving DecidableEq

/-- `defaultdict(float)` read: missing keys give `0.0`. -/
def lastTime (st : RateLimiterState) (m : String) : ℚ :=
  match st.last_request_time.find? (fun p => p.1 = m) with
  | some p => p.2
  | none => 0

/-- `FreeModelRateLimiter.is_free_model` (openrouter.py:22-24):
`":free" in model.lower()` — a substring test, not a suffix test. -/
def is_free_model (m : String) : Bool :=
  containsTok ":free".toList (m.toList.map Char.toLower)

/-- `FreeModelRateLimiter.wait_if_needed` (openrouter.py:26-48) at current
time `now`: returns the slept duration and the updated state.  After
sleeping, `time.time()` has advanced by the wait, so the blocking branch
records `now + wait`. -/
def wait_if_needed (st : RateLimiterState) (m : String) (now : ℚ) :
    ℚ × RateLimiterState :=
  if ¬ is_free_model m then (0, st)
  else
    let timeSinceLast := now - lastTime st m
    if timeSinceLast < st.min_interval then
      let wait := st.min_interval - timeSinceLast
      (wait, ⟨st.min_interval, dictSetTime st.last_request_time m (now + wait)⟩)
    else
      (0, ⟨st.min_interval, dictSetTime st.last_request_time m now⟩)

/-! ### Council orchestration (`council.py`) -/

/-- A Stage 1 entry `{"model": ..., "response": ...}` (council.py:61-64);
`response` is `Option Text` because `response.get('content', '')` can
surface a stored Python `None`. -/
structure Stage1Entry where
  model : String
  response : Option Text
deriving DecidableEq

/-- A Stage 2 entry `{"model", "ranking", "parsed_ranking"}`
(council.py:153-157). -/
structure Stage2Entry where
  model : String
  ranking : Text
  parsed_ranking : List Text
deriving DecidableEq

/-- The Stage 3 dict `{"model", "response"}` (council.py:233-241). -/
structure Stage3Result where
  model : String
  response : Option Text
deriving DecidableEq

/-- An aggregate-ranking entry
`{"model", "average_rank", "rankings_count"}` (council.py:320-324). -/
structure AggregateRankingEntry where
  model : String
  average_rank : ℚ
  rankings_count : Nat
deriving DecidableEq

/-- The metadata dict of `run_full_council` (council.py:429-432). -/
structure CouncilMetadata where
  label_to_model : List (Text × String)
  aggregate_rankings : List AggregateRankingEntry
deriving DecidableEq

/-- The key list of the Python dict comprehension
`{m: r for m, r in zip(models, ...)}`: first-occurrence order. -/
def dictKeys (ms : List String) : List String :=
  ms.foldl (fun acc m => if m ∈ acc then acc else acc ++ [m]) []

/-- `council.stage1_collect_responses` (council.py:49-66), given the
per-model `query_model` results: keep the models whose response `is not
None`, with `response.get('content', '')` as the text.  (Persona and
prompt construction only shape the request, not this result list, and are
elided.) -/
def stage1_collect_responses (models : List String)
    (env : String → Option ModelResponse) : List Stage1Entry :=
  (dictKeys models).filterMap fun m =>
    match env m with
    | none => none
    | some r => some ⟨m, pyGetContent r⟩

/-- The synthetic label key `f"Response {chr(65 + i)}"` for entry index
`i` (council.py:87-93). -/
def labelKey (i : Nat) : Text := respMark ++ [Char.ofNat (65 + i)]

/-- The `label_to_model` dict of `stage2_collect_rankings`
(council.py:90-93), built from index `start` on. -/
def buildLabelMapFrom : Nat → List Stage1Entry → List (Text × String)
  | _, [] => []
  | i, e :: rest => (labelKey i, e.model) :: buildLabelMapFrom (i + 1) rest

/-- The `label_to_model` dict (council.py:90-93). -/
def buildLabelMap (stage1 : List Stage1Entry) : List (Text × String) :=
  buildLabelMapFrom 0 stage1

/-- `council.stage2_collect_rankings` (council.py:69-163), given the
per-model ranking-call results: for each responding target model, skip
falsy (`None` or empty) text, otherwise parse it; returns the entries and
`label_to_model`.  (The prompt construction is elided; the
`try/except` around the parse is dead in the embedding because the parser
is total.) -/
def stage2_collect_rankings (stage1 : List Stage1Entry)
    (targetModels : List String) (env : String → Option ModelResponse) :
    List Stage2Entry × List (Text × String) :=
  let results := (dictKeys targetModels).filterMap fun m =>
    match env m with
    | none => none
    | some r =>
      match pyGetContent r with
      | none => none
      | some txt =>
        if txt.isEmpty then none
        else some ⟨m, txt, parse_ranking_from_text txt⟩
  (results, buildLabelMap stage1)

/-- The fixed chairman-failure fallback text (council.py:235). -/
def fallbackSynthesisText : Text :=
  "Error: Unable to generate final synthesis.".toList

/-- `council.stage3_synthesize_final` (council.py:166-241), given the
chairman call's result: the fallback dict if the response `is None`, else
`{"model": chairman, "response": response.get('content', '')}`. -/
def stage3_synthesize_final (chairman : String)
    (resp : Option ModelResponse) : Stage3Result :=
  match resp with
  | none => ⟨chairman, some fallbackSynthesisText⟩
  | some r => ⟨chairman, pyGetContent r⟩

/-! ### Aggregate rankings (`council.py:278-329`) -/

/-- Association-list lookup modelling `label in label_to_model` /
`label_to_model[label]`. -/
def lookupLabel : List (Text × String) → Text → Option String
  | [], _ => none
  | (k, v) :: rest, l => if k = l then some v else lookupLabel rest l

/-- `model_positions[model_name].append(position)` on the insertion-ordered
`defaultdict(list)`. -/
def dictAppendPos : List (String × List Nat) → String → Nat → List (String × List Nat)
  | [], k, v => [(k, [v])]
  | (k', vs) :: rest, k, v =>
    if k' = k then (k', vs ++ [v]) :: rest else (k', vs) :: dictAppendPos rest k v

/-- Association-list lookup in `model_positions`. -/
def lookupPos : List (String × List Nat) → String → Option (List Nat)
  | [], _ => none
  | (k, vs) :: rest, m => if k = m then some vs else lookupPos rest m

/-- The `for position, label in enumerate(parsed_ranking, start=1)` loop
(council.py:306-309). -/
def addPositions (ltm : List (Text × String)) :
    List (String × List Nat) → Nat → List Text → List (String × List Nat)
  | d, _, [] => d
  | d, pos, l :: rest =>
    match lookupLabel ltm l with
    | some m => addPositions ltm (dictAppendPos d m pos) (pos + 1) rest
    | none => addPositions ltm d (pos + 1) rest

/-- The `for ranking in stage2_results` loop (council.py:297-313): skip
falsy ranking text, otherwise re-parse it and collect positions. -/
def collectPositions (ltm : List (Text × String)) :
    List (String × List Nat) → List Stage2Entry → List (String × List Nat)
  | d, [] => d
  | d, e :: rest =>
    collectPositions ltm
      (if e.ranking.isEmpty then d
       else addPositions ltm d 1 (parse_ranking_from_text e.ranking)) rest

/-- Python `sum` over a position list. -/
def sumNat (l : List Nat) : Nat := l.foldl (· + ·) 0

/-- Round-half-to-even to an integer, the rounding `round` uses
(idealized over ℚ; the float representation error of `round(x, 2)` is not
modelled). -/
def pyRoundHalfEven (q : ℚ) : ℤ :=
  let f := ⌊q⌋
  if q - f < 1 / 2 then f
  else if 1 / 2 < q - f then f + 1
  else if f % 2 = 0 then f else f + 1

/-- Python `round(x, 2)` (council.py:322), idealized over ℚ. -/
def pyRound2 (q : ℚ) : ℚ := (pyRoundHalfEven (q * 100) : ℚ) / 100

/-- The `aggregate` list before sorting (council.py:316-324). -/
def aggEntries (d : List (String × List Nat)) : List AggregateRankingEntry :=
  d.filterMap fun p =>
    if p.2.isEmpty then none
    else some ⟨p.1, pyRound2 ((sumNat p.2 : ℚ) / (p.2.length : ℚ)), p.2.length⟩

/-- The sort key `lambda x: x['average_rank']` as an order relation. -/
def aggLE (a b : AggregateRankingEntry) : Prop :=
  a.average_rank ≤ b.average_rank

instance : DecidableRel aggLE := fun a b =>
  inferInstanceAs (Decidable (a.average_rank ≤ b.average_rank))

instance : IsTotal AggregateRankingEntry aggLE :=
  ⟨fun a b => le_total a.average_rank b.average_rank⟩

instance : IsTrans AggregateRankingEntry aggLE :=
  ⟨fun _ _ _ h1 h2 => le_trans h1 h2⟩

/-- `council.calculate_aggregate_rankings` (council.py:278-329). -/
def calculate_aggregate_rankings (entries : List Stage2Entry)
    (ltm : List (Text × String)) : List AggregateRankingEntry :=
  List.insertionSort aggLE (aggEntries (collectPositions ltm [] entries))

/-! ### Full pipeline (`council.py:370-434`) -/

/-- The early-return payload when `stage1_results` is empty
(council.py:398-402). -/
def allFailedStage3 : Stage3Result :=
  ⟨"error", some "All models failed to respond. Please try again.".toList⟩

/-- `council.run_full_council` (council.py:370-434): Stage 1, the
empty-results early return, Stage 2 over the models that produced Stage 1
entries, aggregation, Stage 3.  (In the non-empty branch
`actual_models_from_stage1` is non-empty, so the `or council_models`
alternative of council.py:412 is dead.) -/
def run_full_council (councilModels : List String) (chairman : String)
    (stage1Env stage2Env : String → Option ModelResponse)
    (chairmanResp : Option ModelResponse) :
    List Stage1Entry × List Stage2Entry × Stage3Result × CouncilMetadata :=
  let stage1 := stage1_collect_responses councilModels stage1Env
  if stage1.isEmpty then ([], [], allFailedStage3, ⟨[], []⟩)
  else
    let (stage2, ltm) := stage2_collect_rankings stage1 (stage1.map (·.model)) stage2Env
    let agg := calculate_aggregate_rankings stage2 ltm
    (stage1, stage2, stage3_synthesize_final chairman chairmanResp, ⟨ltm, agg⟩)

/-! ### Streaming adapter (`main.py:328-428`) -/

/-- The server-sent events of the streaming endpoint. -/
inductive SSEEvent where
  | stage1Start
  | stage1Complete (data : List Stage1Entry)
  | stage2Start
  | stage2Complete (data : List Stage2Entry) (ltm : List (Text × String))
      (agg : List AggregateRankingEntry)
  | stage3Start
  | stage3Complete (r : Stage3Result)
  | complete
deriving DecidableEq

/-- The stage-event sequence of `event_generator` (main.py:369-424).
Stage 2 is a computation that may raise (`Except`); a raise is caught and
converted into an empty `stage2_complete` event (main.py:393-401), after
which Stage 3 runs on the emptied results.  (Storage side effects and the
optional title event are elided; the inner `try` around the aggregate
computation is dead in the embedding because the computation is total.) -/
def event_generator_events (stage1 : List Stage1Entry)
    (stage2Outcome : Except String (List Stage2Entry × List (Text × String)))
    (chairman : String) (chairmanResp : Option ModelResponse) : List SSEEvent :=
  [SSEEvent.stage1Start, SSEEvent.stage1Complete stage1, SSEEvent.stage2Start] ++
  (match stage2Outcome with
   | .ok (s2, ltm) =>
     [SSEEvent.stage2Complete s2 ltm (calculate_aggregate_rankings s2 ltm)]
   | .error _ => [SSEEvent.stage2Complete [] [] []]) ++
  [SSEEvent.stage3Start,
   SSEEvent.stage3Complete (stage3_synthesize_final chairman chairmanResp),
   SSEEvent.complete]

/-! ### Claim-worded reference definitions

These follow the wording of the specification (not the code); the
theorems below compare the code embedding against them. -/

/-- The label portion of a numbered match, as the claim describes it
(`extract just the label portion`). -/
def labelPortion (m : Text) : Text := (searchResp m.length m).getD []

/-- The extraction the ranking-parser claim applies to a marker section:
label portions of all numbered matches in textual order, else all
`Response <letter>` occurrences in that section. -/
def claimedExtract (sec : Text) : List Text :=
  let nm := findNumbered sec.length sec
  if ¬ nm.isEmpty then nm.map labelPortion else findResp sec.length sec

/-- The ranking-parser claim as stated: the section is the text after the
first occurrence of the marker, to the end of the text. -/
def claimedParseStated (t : Text) : List Text :=
  claimedExtract (afterFirstTok finalMarker t)

/-- The amended ranking-parser claim: the section is the text after the
first occurrence of the marker, up to the next occurrence of the marker
(to the end if the marker does not occur again). -/
def claimedParseAmended (t : Text) : List Text :=
  claimedExtract (upToTok finalMarker (afterFirstTok finalMarker t))

/-- The free-tier classification as the rate-limiter claim states it: a
reserved suffix token (`":free"`, case-insensitively) on the identifier. -/
def suffixFreeTagged (m : String) : Bool :=
  endsWithTok ":free".toList (m.toList.map Char.toLower)

/-- Modelled from the spec: `throttle(modelId) -> waitedSeconds` of §4.1,
with the free-tier test amended from a suffix test to a substring test
(`":free"` contained case-insensitively in the identifier), which is what
the code implements.  If the model is not free-tier, return 0 with no side
effect; otherwise compare the elapsed time against the minimum interval,
block for the difference when it is too small (recording the post-block
clock), else record `now` immediately and return 0. -/
def throttleSpec (st : RateLimiterState) (m : String) (now : ℚ) :
    ℚ × RateLimiterState :=
  if is_free_model m then
    let elapsed := now - lastTime st m
    if elapsed < st.min_interval then
      let blockFor := st.min_interval - elapsed
      (blockFor, ⟨st.min_interval, dictSetTime st.last_request_time m (now + blockFor)⟩)
    else
      (0, ⟨st.min_interval, dictSetTime st.last_request_time m now⟩)
  else (0, st)

/-- The 1-indexed positions (counting from `pos`) at which a label that
the `LabelMap` resolves to `m` appears in one parsed label sequence. -/
def labelPositions (ltm : List (Text × String)) (m : String) :
    Nat → List Text → List Nat
  | _, [] => []
  | pos, l :: rest =>
    (if lookupLabel ltm l = some m then [pos] else []) ++
      labelPositions ltm m (pos + 1) rest

/-- All 1-indexed positions collected for model `m` across the parsed
ranking sequences of all Stage 2 entries (labels not in the `LabelMap`
are ignored) — the claim's description of the aggregate input. -/
def specPositions (entries : List Stage2Entry) (ltm : List (Text × String))
    (m : String) : List Nat :=
  (entries.map fun e =>
    labelPositions ltm m 1 (parse_ranking_from_text e.ranking)).flatten

/-- The arithmetic mean of a position list, as the claim states it. -/
def meanPosition (ps : List Nat) : ℚ := (sumNat ps : ℚ) / (ps.length : ℚ)

/-! ### Concrete inputs used by witnesses and counterexamples -/

/-- The ranking text of the spec's parser example. -/
def exRankingText : Text :=
  "Response C offers the best answer.\nFINAL RANKING:\n1. Response C\n2. Response A".toList

/-- A ranking text whose marker occurs twice. -/
def exTwoMarkers : Text :=
  "FINAL RANKING: 1. Response A FINAL RANKING: 2. Response B".toList

/-- A ranking text parsing to `[Response A, Response B]`. -/
def exTextAB : Text := "FINAL RANKING:\n1. Response A\n2. Response B".toList

/-- A ranking text parsing to `[Response B, Response A]`. -/
def exTextBA : Text := "FINAL RANKING:\n1. Response B\n2. Response A".toList

/-- The spec's aggregate example: parsed sequences `[A,B]` and `[B,A]`. -/
def exEntriesPair : List Stage2Entry :=
  [⟨"m1", exTextAB, parse_ranking_from_text exTextAB⟩,
   ⟨"m2", exTextBA, parse_ranking_from_text exTextBA⟩]

/-- The spec's aggregate example label map `{A: m1, B: m2}`. -/
def exMapPair : List (Text × String) :=
  [(respLabel 'A', "m1"), (respLabel 'B', "m2")]

/-- Three rankings giving model `m1` positions `[1,2,2]` (mean `5/3`) and
`m2` positions `[2,1,1]` (mean `4/3`). -/
def exEntriesThird : List Stage2Entry :=
  [⟨"r1", exTextAB, parse_ranking_from_text exTextAB⟩,
   ⟨"r2", exTextBA, parse_ranking_from_text exTextBA⟩,
   ⟨"r3", exTextBA, parse_ranking_from_text exTextBA⟩]

/-- An environment in which every attempt yields HTTP 429 without
rate-limit headers. -/
def envAll429 : Nat → Outcome := fun _ => Outcome.http429 none

/-- An environment in which every model's call fails permanently with
HTTP 404. -/
def envAll404 : String → Option ModelResponse :=
  fun m => some (.err .notFound (some 404) m)

/-- A successful chairman response with content `"final answer"`. -/
def exChairmanOk : Option ModelResponse :=
  some (.ok (some "final answer".toList) none ⟨1, 2, 3⟩)

/-- A Stage 1 list of 27 entries: models `w0` … `w25` and then `onlyLate`
at index 26. -/
def exStage1Long : List Stage1Entry :=
  ((List.range 26).map fun i => ⟨s!"w{i}", some ['x']⟩) ++ [⟨"onlyLate", some ['y']⟩]

/-- A ranking environment whose single responder ranks only Response A. -/
def envRankA : String → Option ModelResponse :=
  fun _ => some (.ok (some "FINAL RANKING:\n1. Response A".toList) none ⟨0, 0, 0⟩)

/-- Append a position batch to an optional dictionary entry: an absent
entry stays absent when the batch is empty, otherwise the batch is
appended to the (possibly newly created) entry.  Used to state how
`model_positions` evolves. -/
def optApp (o : Option (List Nat)) (l : List Nat) : Option (List Nat) :=
  match o with
  | some vs => some (vs ++ l)
  | none => if l = [] then none else some l

/-! ## Theorems -/

/-- C1 (status: code_bug).  The claim — every model whose call returned a
failure payload is absent from the Stage 1 list — matches `query_model`'s
documented contract ("None if failed") and the `is not None` filter of
council.py:60, but with the default `max_retries = 5` a failing call
returns an error dict, never `None`.  Evaluated at the failing input
(one model, HTTP 404 failure): the failed model is kept, with empty
response text, instead of being dropped. -/
theorem c1_failed_model_kept_in_stage1 :
    stage1_collect_responses ["m1"] envAll404 = [⟨"m1", some []⟩] ∧
    "m1" ∈ (stage1_collect_responses ["m1"] envAll404).map (·.model) := by
  decide

/-- C2 (status: code_bug).  The claim — a run in which zero Stage 1 calls
succeed aborts early with the all-failed payload, skipping Stage 2/3 —
matches the intent of council.py:398-402, but because failed calls yield
error dicts (not `None`), `stage1_results` is non-empty even when every
model fails, so the early return never fires and Stages 2 and 3 run.
Evaluated at the failing input (both models fail with HTTP 404): the
pipeline returns a chairman Stage 3 result, not `allFailedStage3`. -/
theorem c2_pipeline_proceeds_when_all_models_fail :
    (run_full_council ["m1", "m2"] "chair" envAll404 envAll404 exChairmanOk).2.2.1
      = ⟨"chair", some "final answer".toList⟩ ∧
    (run_full_council ["m1", "m2"] "chair" envAll404 envAll404 exChairmanOk).1 ≠ [] ∧
    (run_full_council ["m1", "m2"] "chair" envAll404 envAll404 exChairmanOk).2.2.1
      ≠ allFailedStage3 := by
  decide

/-- C3 (status: code_bug).  The claim — Stage 3 text is non-empty even on
chairman failure, degrading to a fixed fallback — matches the fallback
block of council.py:231-236, but that block tests `response is None`
while a failing `query_model` returns an error dict, so on chairman
failure Stage 3 returns `response.get('content', '')` of an error dict:
the empty string, not the fallback text.  Evaluated at the failing input
(chairman fails with HTTP 500). -/
theorem c3_chairman_failure_yields_empty_text :
    (stage3_synthesize_final "chair" (some (.err .serverError (some 500) "chair"))).response
      = some [] ∧
    (stage3_synthesize_final "chair" (some (.err .serverError (some 500) "chair"))).response
      ≠ some fallbackSynthesisText := by
  decide

/-- C4 (status: code_bug).  The claim — exhausting the 5 retries on HTTP
429 yields a `retry_exhausted` failure carrying the last status — matches
the explicit retry-exhausted payload of openrouter.py:307-317, but the
429 branch raises an `HTTPStatusError` inside its own `try`
(openrouter.py:219-223), which the `except` clause classifies as a
permanent error, so the call returns kind "client error" (status 429)
and the retry-exhausted branch is unreachable.  Evaluated at the failing
input (HTTP 429 with no headers on all five attempts). -/
theorem c4_429_exhaustion_classified_client_error :
    query_model envAll429 "m" 5 = some (.err .clientError (some 429) "m") ∧
    ErrKind.clientError ≠ ErrKind.retryExhausted := by
  decide

/-- The retry loop of `query_model` executes at most `fuel` iterations. -/
theorem query_loop_iters_le (env : Nat → Outcome) (model : String)
    (maxR : Nat) :
    ∀ fuel attempt lastErr,
      (query_loop env model maxR fuel attempt lastErr).2 ≤ fuel := by
  intro fuel
  induction fuel with
  | zero => intro a le; simp [query_loop]
  | succ n ih =>
    intro a le
    simp only [query_loop]
    cases env a with
    | success c r u => simp
    | unexpected => simp
    | http429 h =>
      by_cases hlt : a + 1 < maxR
      · simpa [hlt] using ih (a + 1) le
      · simp [hlt]
    | timedOut =>
      by_cases hlt : a + 1 < maxR
      · simpa [hlt] using ih (a + 1) (some none)
      · simp [hlt]
    | httpError s =>
      by_cases hlt : (s = 502 ∨ s = 503) ∧ a + 1 < maxR
      · simpa [hlt] using ih (a + 1) (some (some s))
      · simp [hlt]

/-- If the separator does not occur, the text before its first occurrence
is the whole text. -/
theorem upToTok_of_not_contains {sep : Text} :
    ∀ {t : Text}, containsTok sep t = false → upToTok sep t = t := by
  intro t
  induction t with
  | nil => intro _; rfl
  | cons c rest ih =>
    intro h
    simp only [containsTok, Bool.or_eq_false_iff] at h
    simp [upToTok, h.1, ih h.2]

/-- `pySplitAux` gives the same result under any sufficient fuel. -/
theorem pySplitAux_fuel {sep : Text} (hsep : sep ≠ []) :
    ∀ (n m : Nat) (acc t : Text), t.length ≤ n → t.length ≤ m →
      pySplitAux sep n acc t = pySplitAux sep m acc t := by
  intro n
  induction n with
  | zero =>
    intro m acc t hn _
    have : t = [] := List.length_eq_zero.mp (Nat.le_zero.mp hn)
    subst this
    cases m <;> rfl
  | succ n ih =>
    intro m acc t hn hm
    cases t with
    | nil => cases m <;> rfl
    | cons c rest =>
      cases m with
      | zero => exact absurd hm (by simp)
      | succ m =>
        have hsl : 1 ≤ sep.length := by
          cases sep with
          | nil => exact absurd rfl hsep
          | cons a b => simp
        simp only [pySplitAux]
        by_cases hl : leadsWith sep (c :: rest) = true
        · simp only [hl, if_true]
          have hd : (List.drop sep.length (c :: rest)).length ≤ rest.length := by
            simp only [List.length_drop, List.length_cons]
            omega
          have h1 : (List.drop sep.length (c :: rest)).length ≤ n := by
            have : rest.length ≤ n := by simpa using Nat.lt_succ_iff.mp (Nat.lt_of_lt_of_le (by simp) hn)
            omega
          have h2 : (List.drop sep.length (c :: rest)).length ≤ m := by
            have : rest.length ≤ m := by simpa using Nat.lt_succ_iff.mp (Nat.lt_of_lt_of_le (by simp) hm)
            omega
          exact congrArg _ (ih m [] _ h1 h2)
        · simp only [Bool.not_eq_true] at hl
          simp only [hl, Bool.false_eq_true, if_false]
          exact ih m (c :: acc) rest (by simpa using hn) (by simpa using hm)

/-- One `pySplitAux` step over a text that contains the separator:
the first emitted part is the text before the first occurrence, and the
rest is a recursive split of the text after it. -/
theorem pySplitAux_contains {sep : Text} (hsep : sep ≠ []) :
    ∀ (t : Text) (n : Nat) (acc : Text), t.length ≤ n →
      containsTok sep t = true →
      pySplitAux sep n acc t =
        (acc.reverse ++ upToTok sep t) ::
          pySplitAux sep (afterFirstTok sep t).length [] (afterFirstTok sep t) := by
  intro t
  induction t with
  | nil =>
    intro n acc _ hc
    simp only [containsTok, List.isEmpty_iff] at hc
    exact absurd hc hsep
  | cons c rest ih =>
    intro n acc hn hc
    cases n with
    | zero => exact absurd hn (by simp)
    | succ n =>
      have hsl : 1 ≤ sep.length := by
        cases sep with
        | nil => exact absurd rfl hsep
        | cons a b => simp
      have hrn : rest.length ≤ n := by simpa using hn
      simp only [pySplitAux]
      by_cases hl : leadsWith sep (c :: rest) = true
      · simp only [hl, if_true, upToTok, afterFirstTok]
        have hd : (List.drop sep.length (c :: rest)).length ≤ n := by
          simp only [List.length_drop, List.length_cons]
          omega
        rw [pySplitAux_fuel hsep n (List.drop sep.length (c :: rest)).length [] _ hd le_rfl]
        simp
      · simp only [Bool.not_eq_true] at hl
        have hc' : containsTok sep rest = true := by
          simpa [containsTok, hl] using hc
        simp only [hl, Bool.false_eq_true, if_false, upToTok, afterFirstTok]
        rw [ih n (c :: acc) hrn hc']
        simp

/-- `pySplitAux` over a text not containing the separator emits a single
part. -/
theorem pySplitAux_not_contains {sep : Text} :
    ∀ (t : Text) (n : Nat) (acc : Text), t.length ≤ n →
      containsTok sep t = false →
      pySplitAux sep n acc t = [acc.reverse ++ t] := by
  intro t
  induction t with
  | nil => intro n acc _ _; cases n <;> simp [pySplitAux]
  | cons c rest ih =>
    intro n acc hn hc
    cases n with
    | zero => exact absurd hn (by simp)
    | succ n =>
      simp only [containsTok, Bool.or_eq_false_iff] at hc
      simp only [pySplitAux, hc.1, Bool.false_eq_true, if_false]
      rw [ih n (c :: acc) (by simpa using hn) hc.2]
      simp

/-- For a text containing the separator, `split` has at least two parts
and `parts[1]` is the text after the first occurrence of the separator,
truncated at its next occurrence. -/
theorem pySplit_get_one {sep : Text} (hsep : sep ≠ []) (t : Text)
    (hc : containsTok sep t = true) :
    2 ≤ (pySplit sep t).length ∧
      (pySplit sep t).get? 1 =
        some (upToTok sep (afterFirstTok sep t)) := by
  have h1 : pySplit sep t =
      (upToTok sep t) ::
        pySplitAux sep (afterFirstTok sep t).length [] (afterFirstTok sep t) := by
    simpa using pySplitAux_contains hsep t t.length [] le_rfl hc
  by_cases hc2 : containsTok sep (afterFirstTok sep t) = true
  · have h2 := pySplitAux_contains hsep (afterFirstTok sep t)
      (afterFirstTok sep t).length [] le_rfl hc2
    rw [h1, h2]
    simp
  · have h2 := pySplitAux_not_contains (afterFirstTok sep t)
      (afterFirstTok sep t).length [] le_rfl (Bool.not_eq_true _ ▸ hc2)
    rw [h1, h2]
    simp [upToTok_of_not_contains (Bool.not_eq_true _ ▸ hc2)]

/-- C5 (status: corrected, amended claim).  For every text containing the
marker, the parser extracts from the section after the first marker
occurrence *up to the next occurrence* (Python `split(marker)[1]`): label
portions of the numbered matches in textual order, else all
`Response <letter>` occurrences in that section. -/
theorem c5_parser_extracts_from_first_marker_section (t : Text)
    (h : containsTok finalMarker t = true) :
    parse_ranking_from_text t = claimedParseAmended t := by
  have hsep : finalMarker ≠ [] := by decide
  obtain ⟨hlen, hget⟩ := pySplit_get_one hsep t h
  simp only [parse_ranking_from_text, h, if_true, hlen, hget]
  rfl

/-- C5 witness: the spec's example text, with the marker present and the
parser returning `["Response C", "Response A"]`. -/
theorem c5_witness :
    containsTok finalMarker exRankingText = true ∧
    parse_ranking_from_text exRankingText = [respLabel 'C', respLabel 'A'] :=
  ⟨by decide,
   (c5_parser_extracts_from_first_marker_section exRankingText (by decide)).trans
     (by decide)⟩

/-- C5 counterexample: on a text in which the marker occurs twice, the
parser extracts from the text between the first and second occurrence,
not from all text after the first occurrence as the claim states. -/
theorem c5_counterexample_two_markers :
    parse_ranking_from_text exTwoMarkers ≠ claimedParseStated exTwoMarkers ∧
    parse_ranking_from_text exTwoMarkers = [respLabel 'A'] ∧
    claimedParseStated exTwoMarkers = [respLabel 'A', respLabel 'B'] := by
  decide

theorem optApp_nil (o : Option (List Nat)) : optApp o [] = o := by
  cases o <;> simp [optApp]

theorem optApp_append (o : Option (List Nat)) (a b : List Nat) :
    optApp (optApp o a) b = optApp o (a ++ b) := by
  cases o with
  | some vs => simp [optApp]
  | none =>
    by_cases ha : a = []
    · subst ha; simp [optApp]
    · simp only [optApp, ha, if_false]
      by_cases hb : b = []
      · subst hb; simp [ha]
      · simp [ha, hb]

theorem lookupPos_dictAppendPos (d : List (String × List Nat))
    (k : String) (v : Nat) (m : String) :
    lookupPos (dictAppendPos d k v) m =
      if m = k then optApp (lookupPos d m) [v] else lookupPos d m := by
  induction d with
  | nil =>
    by_cases h : m = k
    · subst h; simp [dictAppendPos, lookupPos, optApp]
    · simp [dictAppendPos, lookupPos, h, Ne.symm h, optApp]
  | cons q rest ih =>
    obtain ⟨k', vs⟩ := q
    by_cases h1 : k' = k
    · subst h1
      by_cases h2 : m = k'
      · subst h2; simp [dictAppendPos, lookupPos, optApp]
      · simp [dictAppendPos, lookupPos, h2, Ne.symm h2]
    · by_cases h2 : k' = m
      · subst h2
        simp [dictAppendPos, lookupPos, h1, Ne.symm h1]
      · simp [dictAppendPos, lookupPos, h1, h2, ih]

theorem keys_dictAppendPos (d : List (String × List Nat)) (k : String) (v : Nat) :
    (dictAppendPos d k v).map Prod.fst =
      if k ∈ d.map Prod.fst then d.map Prod.fst else d.map Prod.fst ++ [k] := by
  induction d with
  | nil => simp [dictAppendPos]
  | cons q rest ih =>
    obtain ⟨k', vs⟩ := q
    by_cases h1 : k' = k
    · subst h1; simp [dictAppendPos]
    · simp only [dictAppendPos, h1, if_false, List.map_cons, List.mem_cons]
      rw [ih]
      by_cases h2 : k ∈ rest.map Prod.fst
      · simp [h2, Ne.symm h1]
      · simp [h2, Ne.symm h1]

theorem vals_dictAppendPos (d : List (String × List Nat)) (k : String) (v : Nat)
    (h : ∀ p ∈ d, p.2 ≠ []) : ∀ p ∈ dictAppendPos d k v, p.2 ≠ [] := by
  induction d with
  | nil => simp [dictAppendPos]
  | cons q rest ih =>
    obtain ⟨k', vs⟩ := q
    by_cases h1 : k' = k
    · subst h1
      simp only [dictAppendPos, if_true]
      intro p hp
      rcases List.mem_cons.mp hp with h2 | h2
      · subst h2; simp
      · exact h p (List.mem_cons_of_mem _ h2)
    · simp only [dictAppendPos, h1, if_false]
      intro p hp
      rcases List.mem_cons.mp hp with h2 | h2
      · subst h2; exact h (k', vs) (List.mem_cons_self _ _)
      · exact ih (fun q hq => h q (List.mem_cons_of_mem _ hq)) p h2

theorem nodupKeys_dictAppendPos (d : List (String × List Nat)) (k : String)
    (v : Nat) (h : (d.map Prod.fst).Nodup) :
    ((dictAppendPos d k v).map Prod.fst).Nodup := by
  rw [keys_dictAppendPos]
  by_cases h2 : k ∈ d.map Prod.fst
  · simpa [h2] using h
  · simp only [h2, if_false]
    rw [← List.concat_eq_append]
    exact h.concat h2

theorem mem_of_lookupPos (d : List (String × List Nat)) (m : String)
    (vs : List Nat) (h : lookupPos d m = some vs) : (m, vs) ∈ d := by
  induction d with
  | nil => simp [lookupPos] at h
  | cons q rest ih =>
    obtain ⟨k, ws⟩ := q
    by_cases h1 : k = m
    · subst h1
      have h' : ws = vs := by simpa [lookupPos] using h
      subst h'
      exact List.mem_cons_self _ _
    · simp only [lookupPos, h1, if_false] at h
      exact List.mem_cons_of_mem _ (ih h)

theorem lookupPos_of_mem_nodup (d : List (String × List Nat))
    (h : (d.map Prod.fst).Nodup) (p : String × List Nat) (hp : p ∈ d) :
    lookupPos d p.1 = some p.2 := by
  induction d with
  | nil => simp at hp
  | cons q rest ih =>
    obtain ⟨k, ws⟩ := q
    simp only [List.map_cons, List.nodup_cons] at h
    rcases List.mem_cons.mp hp with h2 | h2
    · subst h2
      simp [lookupPos]
    · have hk : ¬ k = p.1 := fun hh =>
        h.1 (by rw [hh]; exact List.mem_map_of_mem Prod.fst h2)
      simp only [lookupPos, hk, if_false]
      exact ih h.2 h2

theorem lookupPos_addPositions (ltm : List (Text × String)) (m : String) :
    ∀ (ls : List Text) (d : List (String × List Nat)) (pos : Nat),
      lookupPos (addPositions ltm d pos ls) m =
        optApp (lookupPos d m) (labelPositions ltm m pos ls) := by
  intro ls
  induction ls with
  | nil => intro d pos; simp [addPositions, labelPositions, optApp_nil]
  | cons l rest ih =>
    intro d pos
    simp only [addPositions, labelPositions]
    cases hl : lookupLabel ltm l with
    | none =>
      have hne : ¬ lookupLabel ltm l = some m := by simp [hl]
      simp only [hne, if_false]
      simp [ih]
    | some m' =>
      by_cases hm : m' = m
      · subst hm
        simp only [hl, if_pos rfl]
        rw [ih, lookupPos_dictAppendPos]
        simp [optApp_append]
      · have hne : ¬ lookupLabel ltm l = some m := by simp [hl, hm]
        simp only [hne, if_false]
        rw [ih, lookupPos_dictAppendPos]
        simp [hm, Ne.symm hm]

theorem inv_addPositions (ltm : List (Text × String)) :
    ∀ (ls : List Text) (d : List (String × List Nat)) (pos : Nat),
      (d.map Prod.fst).Nodup → (∀ p ∈ d, p.2 ≠ []) →
      ((addPositions ltm d pos ls).map Prod.fst).Nodup ∧
        (∀ p ∈ addPositions ltm d pos ls, p.2 ≠ []) := by
  intro ls
  induction ls with
  | nil => intro d pos h1 h2; exact ⟨h1, h2⟩
  | cons l rest ih =>
    intro d pos h1 h2
    simp only [addPositions]
    cases hl : lookupLabel ltm l with
    | none => exact ih d (pos + 1) h1 h2
    | some m' =>
      exact ih (dictAppendPos d m' pos) (pos + 1)
        (nodupKeys_dictAppendPos d m' pos h1) (vals_dictAppendPos d m' pos h2)

theorem parse_nil : parse_ranking_from_text [] = [] := by decide

theorem lookupPos_collectPositions (ltm : List (Text × String)) (m : String) :
    ∀ (entries : List Stage2Entry) (d : List (String × List Nat)),
      lookupPos (collectPositions ltm d entries) m =
        optApp (lookupPos d m) (specPositions entries ltm m) := by
  intro entries
  induction entries with
  | nil => intro d; simp [collectPositions, specPositions, optApp_nil]
  | cons e rest ih =>
    intro d
    simp only [collectPositions]
    by_cases he : e.ranking.isEmpty
    · have hp : parse_ranking_from_text e.ranking = [] := by
        rw [List.isEmpty_iff.mp he]; exact parse_nil
      simp only [he, if_true]
      rw [ih]
      simp [specPositions, hp, labelPositions]
    · simp only [he, Bool.false_eq_true, if_false]
      rw [ih, lookupPos_addPositions, optApp_append]
      simp [specPositions]

theorem inv_collectPositions (ltm : List (Text × String)) :
    ∀ (entries : List Stage2Entry) (d : List (String × List Nat)),
      (d.map Prod.fst).Nodup → (∀ p ∈ d, p.2 ≠ []) →
      ((collectPositions ltm d entries).map Prod.fst).Nodup ∧
        (∀ p ∈ collectPositions ltm d entries, p.2 ≠ []) := by
  intro entries
  induction entries with
  | nil => intro d h1 h2; exact ⟨h1, h2⟩
  | cons e rest ih =>
    intro d h1 h2
    simp only [collectPositions]
    by_cases he : e.ranking.isEmpty
    · simp only [he, if_true]
      exact ih d h1 h2
    · simp only [he, Bool.false_eq_true, if_false]
      obtain ⟨g1, g2⟩ := inv_addPositions ltm (parse_ranking_from_text e.ranking) d 1 h1 h2
      exact ih _ g1 g2

theorem aggEntries_models (d : List (String × List Nat))
    (h : ∀ p ∈ d, p.2 ≠ []) :
    (aggEntries d).map (·.model) = d.map Prod.fst := by
  induction d with
  | nil => rfl
  | cons p rest ih =>
    have hp : p.2 ≠ [] := h p (List.mem_cons_self _ _)
    have htail := ih (fun q hq => h q (List.mem_cons_of_mem _ hq))
    simp [aggEntries, List.filterMap_cons, hp]
    simpa [aggEntries] using htail

/-- C6 (status: corrected, amended claim).  For every collection of
Stage 2 entries and every label map, `calculate_aggregate_rankings`
assigns each listed model the arithmetic mean — rounded to two decimal
places, ties to even — of the 1-indexed positions at which its labels
appear across the parsed ranking sequences (labels not in the label map
are ignored); it lists exactly the models with at least one collected
position, at most once each, sorted ascending by (rounded) mean rank; and
on the spec's example (sequences `[A,B]` and `[B,A]`, labels `A ↦ m1`,
`B ↦ m2`) it yields exactly `m1` with mean `1.5` count 2 and `m2` with
mean `1.5` count 2. -/
theorem c6_aggregate_is_sorted_rounded_means (entries : List Stage2Entry)
    (ltm : List (Text × String)) :
    (∀ e ∈ calculate_aggregate_rankings entries ltm,
        specPositions entries ltm e.model ≠ [] ∧
        e.average_rank = pyRound2 (meanPosition (specPositions entries ltm e.model)) ∧
        e.rankings_count = (specPositions entries ltm e.model).length) ∧
    (∀ m, specPositions entries ltm m ≠ [] →
        ∃ e ∈ calculate_aggregate_rankings entries ltm, e.model = m) ∧
    ((calculate_aggregate_rankings entries ltm).map (·.model)).Nodup ∧
    (calculate_aggregate_rankings entries ltm).Sorted aggLE ∧
    calculate_aggregate_rankings exEntriesPair exMapPair =
      [⟨"m1", 3 / 2, 2⟩, ⟨"m2", 3 / 2, 2⟩] := by
  have hinv := inv_collectPositions ltm entries [] (by simp) (by simp)
  have hlk : ∀ m, lookupPos (collectPositions ltm [] entries) m =
      optApp none (specPositions entries ltm m) :=
    fun m => lookupPos_collectPositions ltm m entries []
  have hperm :=
    List.perm_insertionSort aggLE (aggEntries (collectPositions ltm [] entries))
  refine ⟨?_, ?_, ?_, List.sorted_insertionSort aggLE _, ?_⟩
  · intro e he
    have he' : e ∈ aggEntries (collectPositions ltm [] entries) :=
      hperm.mem_iff.mp he
    obtain ⟨p, hp, hfp⟩ := List.mem_filterMap.mp he'
    have hpne : p.2 ≠ [] := hinv.2 p hp
    have hpe : ¬ p.2.isEmpty := by simpa using hpne
    have hep : (⟨p.1, pyRound2 ((sumNat p.2 : ℚ) / (p.2.length : ℚ)), p.2.length⟩ :
        AggregateRankingEntry) = e := by simpa [hpe] using hfp
    have hlp : lookupPos (collectPositions ltm [] entries) p.1 = some p.2 :=
      lookupPos_of_mem_nodup _ hinv.1 p hp
    rw [hlk p.1] at hlp
    by_cases hs : specPositions entries ltm p.1 = []
    · rw [hs] at hlp; simp [optApp] at hlp
    · have hspec : specPositions entries ltm p.1 = p.2 := by
        simpa [optApp, hs] using hlp
      subst hep
      refine ⟨by simpa [hspec] using hpne, ?_, ?_⟩
      · show pyRound2 ((sumNat p.2 : ℚ) / (p.2.length : ℚ)) =
          pyRound2 (meanPosition (specPositions entries ltm p.1))
        rw [hspec]; rfl
      · show p.2.length = (specPositions entries ltm p.1).length
        rw [hspec]
  · intro m hm
    have hsome : lookupPos (collectPositions ltm [] entries) m =
        some (specPositions entries ltm m) := by
      rw [hlk m]; simp [optApp, hm]
    have hmem := mem_of_lookupPos _ _ _ hsome
    have hagg : (⟨m, pyRound2 ((sumNat (specPositions entries ltm m) : ℚ) /
          ((specPositions entries ltm m).length : ℚ)),
          (specPositions entries ltm m).length⟩ : AggregateRankingEntry) ∈
        aggEntries (collectPositions ltm [] entries) := by
      apply List.mem_filterMap.mpr
      refine ⟨(m, specPositions entries ltm m), hmem, ?_⟩
      simp [hm]
    exact ⟨_, hperm.mem_iff.mpr hagg, rfl⟩
  · have hmodels := aggEntries_models _ hinv.2
    have hperm2 : (calculate_aggregate_rankings entries ltm).map (·.model) =
        ((List.insertionSort aggLE (aggEntries (collectPositions ltm [] entries))).map (·.model)) := rfl
    rw [hperm2, (hperm.map (·.model)).nodup_iff, hmodels]
    exact hinv.1
  · have hD : collectPositions exMapPair [] exEntriesPair =
        [("m1", [1, 2]), ("m2", [2, 1])] := by decide
    have h1 : sumNat [1, 2] = 3 := rfl
    have h2 : sumNat [2, 1] = 3 := rfl
    have hr : pyRound2 ((3 : ℚ) / 2) = 3 / 2 := by
      unfold pyRound2 pyRoundHalfEven; norm_num
    have hE : aggEntries [("m1", [1, 2]), ("m2", [2, 1])] =
        [⟨"m1", 3 / 2, 2⟩, ⟨"m2", 3 / 2, 2⟩] := by
      simp [aggEntries, h1, h2]
      norm_num [hr]
    show List.insertionSort aggLE (aggEntries (collectPositions exMapPair [] exEntriesPair)) = _
    rw [hD, hE]
    simp [List.insertionSort, List.orderedInsert, aggLE]

/-- C6 witness: on the spec's example input, `m1`'s collected position
list is non-empty, and the theorem places `m1` in the aggregate. -/
theorem c6_witness :
    specPositions exEntriesPair exMapPair "m1" ≠ [] ∧
    ∃ e ∈ calculate_aggregate_rankings exEntriesPair exMapPair, e.model = "m1" :=
  ⟨by decide,
   (c6_aggregate_is_sorted_rounded_means exEntriesPair exMapPair).2.1 "m1" (by decide)⟩

/-- C6 counterexample: with three parsed sequences `[A,B]`, `[B,A]`,
`[B,A]`, model `m1` collects positions `[1,2,2]` with arithmetic mean
`5/3`, but the code stores `round(5/3, 2) = 1.67 ≠ 5/3` — the aggregate
does not assign the arithmetic mean as the claim states. -/
theorem c6_counterexample_rounded_mean :
    ∃ e ∈ calculate_aggregate_rankings exEntriesThird exMapPair,
      e.average_rank ≠ meanPosition (specPositions exEntriesThird exMapPair e.model) := by
  have hD : collectPositions exMapPair [] exEntriesThird =
      [("m1", [1, 2, 2]), ("m2", [2, 1, 1])] := by decide
  have h1 : sumNat [1, 2, 2] = 5 := rfl
  have h2 : sumNat [2, 1, 1] = 4 := rfl
  have hr1 : pyRound2 ((5 : ℚ) / 3) = 167 / 100 := by
    unfold pyRound2 pyRoundHalfEven; norm_num [Int.floor_eq_iff]
  have hr2 : pyRound2 ((4 : ℚ) / 3) = 133 / 100 := by
    unfold pyRound2 pyRoundHalfEven; norm_num [Int.floor_eq_iff]
  have hE : aggEntries [("m1", [1, 2, 2]), ("m2", [2, 1, 1])] =
      [⟨"m1", 167 / 100, 3⟩, ⟨"m2", 133 / 100, 3⟩] := by
    simp [aggEntries, h1, h2]
    norm_num [hr1, hr2]
  have hagg : calculate_aggregate_rankings exEntriesThird exMapPair =
      [⟨"m2", 133 / 100, 3⟩, ⟨"m1", 167 / 100, 3⟩] := by
    show List.insertionSort aggLE (aggEntries (collectPositions exMapPair [] exEntriesThird)) = _
    rw [hD, hE]
    simp [List.insertionSort, List.orderedInsert, aggLE]
    norm_num
  rw [hagg]
  refine ⟨⟨"m1", 167 / 100, 3⟩, by simp, ?_⟩
  have hspec : specPositions exEntriesThird exMapPair "m1" = [1, 2, 2] := by decide
  show (167 : ℚ) / 100 ≠ meanPosition (specPositions exEntriesThird exMapPair "m1")
  rw [hspec]
  have h3 : sumNat [1, 2, 2] = 5 := rfl
  simp [meanPosition, h3]
  norm_num

/-- C7 counterexample: the identifier `"m:freezer"` is not tagged by the
reserved suffix token `":free"`, yet `wait_if_needed` does not return 0
with unchanged state — it takes the free-tier path because the code tests
substring containment, not a suffix. -/
theorem c7_counterexample_not_suffix :
    suffixFreeTagged "m:freezer" = false ∧
    wait_if_needed ⟨5, []⟩ "m:freezer" 0 ≠ (0, (⟨5, []⟩ : RateLimiterState)) := by
  have hf : is_free_model "m:freezer" = true := by decide
  refine ⟨by decide, ?_⟩
  simp only [wait_if_needed, hf, lastTime, List.find?_nil, Prod.ext_iff]
  norm_num

/-- C7 (status: corrected, amended claim).  With free-tier membership
amended from "reserved suffix token" to "the reserved token `:free`
contained case-insensitively in the identifier", `wait_if_needed` behaves
exactly as the claim's throttle contract states: non-free identifiers get
0 with unchanged state; free identifiers, under the global lock, either
block for `minInterval - elapsed` and record the post-block clock, or
record `now` immediately and return 0. -/
theorem c7_throttle_matches_spec (st : RateLimiterState) (m : String) (now : ℚ) :
    wait_if_needed st m now = throttleSpec st m now := by
  by_cases h : is_free_model m
  · simp [wait_if_needed, throttleSpec, h]
  · simp [wait_if_needed, throttleSpec, h]

/-- C8 (status: confirmed).  For every environment of remote outcomes
(429s, 502/503s, other HTTP errors, timeouts, successes, unexpected
exceptions), `query_model`'s retry loop executes at most `maxRetries`
(default 5) iterations — each iteration either returns or strictly
increments the attempt counter, which the fuel argument mirrors. -/
theorem c8_query_model_bounded_iterations (env : Nat → Outcome)
    (model : String) (maxRetries : Nat) :
    (query_model_run env model maxRetries).2 ≤ maxRetries := by
  exact query_loop_iters_le env model maxRetries maxRetries 0 none

/-- C9 (status: confirmed).  In the streaming generator, whenever the
Stage 2 computation raises, the error is caught and a `stage2_complete`
event with empty entries, empty label map and empty aggregate rankings is
emitted, after which the Stage 3 events (and the terminal `complete`)
still follow. -/
theorem c9_stage2_error_yields_empty_event_then_stage3
    (stage1 : List Stage1Entry) (e : String) (chairman : String)
    (resp : Option ModelResponse) :
    event_generator_events stage1 (.error e) chairman resp =
      [SSEEvent.stage1Start, SSEEvent.stage1Complete stage1, SSEEvent.stage2Start,
       SSEEvent.stage2Complete [] [] [],
       SSEEvent.stage3Start,
       SSEEvent.stage3Complete (stage3_synthesize_final chairman resp),
       SSEEvent.complete] := by
  rfl

theorem isUpr_charOfNat {n : Nat} (h : isUpr (Char.ofNat n) = true) :
    65 ≤ n ∧ n ≤ 90 := by
  by_cases hv : n.isValidChar
  · have ht : (Char.ofNat n).toNat = n := by
      unfold Char.ofNat
      rw [dif_pos hv]
      rfl
    simpa [isUpr, ht] using h
  · have ht : (Char.ofNat n).toNat = 0 := by
      unfold Char.ofNat
      rw [dif_neg hv]
      rfl
    simp [isUpr, ht] at h

theorem matchResp_shape {s m r : Text} (h : matchResp s = some (m, r)) :
    ∃ c, isUpr c = true ∧ m = respLabel c := by
  unfold matchResp at h
  by_cases h1 : leadsWith respMark s
  · rw [if_pos h1] at h
    cases hd : List.drop respMark.length s with
    | nil => rw [hd] at h; simp at h
    | cons u rest =>
      simp only [hd] at h
      by_cases h2 : isUpr u
      · rw [if_pos h2] at h
        simp only [Option.some_inj, Prod.mk.injEq] at h
        exact ⟨u, h2, h.1.symm⟩
      · rw [if_neg h2] at h; simp at h
  · rw [if_neg h1] at h; simp at h

theorem findResp_shape : ∀ (n : Nat) (t : Text), ∀ l ∈ findResp n t,
    ∃ c, isUpr c = true ∧ l = respLabel c := by
  intro n
  induction n with
  | zero => intro t l hl; simp [findResp] at hl
  | succ n ih =>
    intro t l hl
    cases t with
    | nil => simp [findResp] at hl
    | cons a rest =>
      cases hm : matchResp (a :: rest) with
      | some pr =>
        obtain ⟨mt, after⟩ := pr
        simp only [findResp, hm] at hl
        rcases List.mem_cons.mp hl with h | h
        · subst h; exact matchResp_shape hm
        · exact ih after l h
      | none =>
        simp only [findResp, hm] at hl
        exact ih rest l hl

theorem searchResp_shape : ∀ (n : Nat) (t l : Text),
    searchResp n t = some l → ∃ c, isUpr c = true ∧ l = respLabel c := by
  intro n
  induction n with
  | zero => intro t l h; simp [searchResp] at h
  | succ n ih =>
    intro t l h
    cases t with
    | nil => simp [searchResp] at h
    | cons a rest =>
      cases hm : matchResp (a :: rest) with
      | some pr =>
        obtain ⟨mt, after⟩ := pr
        simp only [searchResp, hm, Option.some_inj] at h
        subst h
        exact matchResp_shape hm
      | none =>
        simp only [searchResp, hm] at h
        exact ih rest l h

/-- Every label the ranking parser emits is either empty (a degenerate
`getD` default that in fact never occurs) or `"Response X"` with `X`
uppercase. -/
theorem parse_shape (t : Text) :
    ∀ l ∈ parse_ranking_from_text t,
      l = [] ∨ ∃ c, isUpr c = true ∧ l = respLabel c := by
  intro l hl
  simp only [parse_ranking_from_text] at hl
  split at hl
  · split at hl
    · split at hl
      · obtain ⟨mm, hmm, rfl⟩ := List.mem_map.mp hl
        cases hs : searchResp mm.length mm with
        | none => left; simp [hs]
        | some x =>
          right
          have hx := searchResp_shape mm.length mm x hs
          simpa [hs] using hx
      · right; exact findResp_shape _ _ l hl
    · right; exact findResp_shape _ _ l hl
  · right; exact findResp_shape _ _ l hl

theorem labelPositions_ne_nil (ltm : List (Text × String)) (m : String) :
    ∀ (ls : List Text) (pos : Nat),
      labelPositions ltm m pos ls ≠ [] → ∃ l ∈ ls, lookupLabel ltm l = some m := by
  intro ls
  induction ls with
  | nil => intro pos h; simp [labelPositions] at h
  | cons l rest ih =>
    intro pos h
    by_cases hc : lookupLabel ltm l = some m
    · exact ⟨l, List.mem_cons_self _ _, hc⟩
    · simp only [labelPositions, hc, if_false, List.nil_append] at h
      obtain ⟨x, hx, hx2⟩ := ih (pos + 1) h
      exact ⟨x, List.mem_cons_of_mem _ hx, hx2⟩

theorem lookupLabel_buildLabelMapFrom :
    ∀ (s1 : List Stage1Entry) (k : Nat) (l : Text) (m : String),
      lookupLabel (buildLabelMapFrom k s1) l = some m →
      ∃ j, ∃ hj : j < s1.length, l = labelKey (k + j) ∧ (s1.get ⟨j, hj⟩).model = m := by
  intro s1
  induction s1 with
  | nil => intro k l m h; simp [buildLabelMapFrom, lookupLabel] at h
  | cons e rest ih =>
    intro k l m h
    simp only [buildLabelMapFrom, lookupLabel] at h
    by_cases hk : labelKey k = l
    · rw [if_pos hk] at h
      refine ⟨0, by simp, ?_, ?_⟩
      · rw [← hk]; simp
      · simpa using Option.some_inj.mp h
    · rw [if_neg hk] at h
      obtain ⟨j, hj, h1, h2⟩ := ih (k + 1) l m h
      refine ⟨j + 1, by simpa using Nat.succ_lt_succ hj, ?_, ?_⟩
      · rw [h1]; congr 1; omega
      · simpa using h2

theorem labelKey_eq_respLabel {i : Nat} {c : Char}
    (h : labelKey i = respLabel c) : Char.ofNat (65 + i) = c := by
  simpa [labelKey, respLabel] using h

/-- C10 (status: confirmed).  The synthetic label characters
`chr(65 + i)` at indices 26 and beyond are never uppercase letters, and
the parser's `Response [A-Z]` pattern only ever produces uppercase-letter
labels; hence a model appearing only at Stage 1 positions 27+ (index 26
and beyond) collects no ranking positions and never appears in the
aggregate ranking computed from Stage 2's label map. -/
theorem c10_late_labels_never_ranked (s1 : List Stage1Entry)
    (targets : List String) (env : String → Option ModelResponse) (m : String)
    (hm : ∀ j : Fin s1.length, (s1.get j).model = m → 26 ≤ j.val) :
    (∀ i, 26 ≤ i → isUpr (Char.ofNat (65 + i)) = false) ∧
    m ∉ ((calculate_aggregate_rankings (stage2_collect_rankings s1 targets env).1
        (stage2_collect_rankings s1 targets env).2).map (·.model)) := by
  constructor
  · intro i hi
    by_contra hb
    have hb' : isUpr (Char.ofNat (65 + i)) = true := by simpa using hb
    have := isUpr_charOfNat hb'
    omega
  · intro hmem
    have hltm : (stage2_collect_rankings s1 targets env).2 = buildLabelMap s1 := rfl
    rw [hltm] at hmem
    set s2 := (stage2_collect_rankings s1 targets env).1 with hs2
    set ltm := buildLabelMap s1 with hltmdef
    have hperm := List.perm_insertionSort aggLE (aggEntries (collectPositions ltm [] s2))
    have hinv := inv_collectPositions ltm s2 [] (by simp) (by simp)
    obtain ⟨e, he, hem⟩ := List.mem_map.mp hmem
    have he' : e ∈ aggEntries (collectPositions ltm [] s2) := hperm.mem_iff.mp he
    obtain ⟨p, hp, hfp⟩ := List.mem_filterMap.mp he'
    have hpne : p.2 ≠ [] := hinv.2 p hp
    have hfp' : (⟨p.1, pyRound2 ((sumNat p.2 : ℚ) / (p.2.length : ℚ)), p.2.length⟩ :
        AggregateRankingEntry) = e := by simpa [hpne] using hfp
    have hp1 : p.1 = m := by rw [← hfp'] at hem; simpa using hem
    have hlp : lookupPos (collectPositions ltm [] s2) p.1 = some p.2 :=
      lookupPos_of_mem_nodup _ hinv.1 p hp
    rw [lookupPos_collectPositions ltm p.1 s2 []] at hlp
    by_cases hs : specPositions s2 ltm p.1 = []
    · rw [hs] at hlp
      simp [optApp, lookupPos] at hlp
    · obtain ⟨e2, he2, hne2⟩ :
          ∃ e2 ∈ s2, labelPositions ltm p.1 1 (parse_ranking_from_text e2.ranking) ≠ [] := by
        by_contra hall
        push_neg at hall
        apply hs
        simp only [specPositions, List.flatten_eq_nil_iff]
        intro x hx
        obtain ⟨e2, he2, rfl⟩ := List.mem_map.mp hx
        exact hall e2 he2
      obtain ⟨l, hl, hlk⟩ := labelPositions_ne_nil ltm p.1 _ 1 hne2
      rcases parse_shape e2.ranking l hl with rfl | ⟨c, hcup, rfl⟩
      · obtain ⟨j, hj, h1, h2⟩ := lookupLabel_buildLabelMapFrom s1 0 [] p.1 hlk
        exact absurd h1.symm (by simp [labelKey, respMark])
      · obtain ⟨j, hj, h1, h2⟩ := lookupLabel_buildLabelMapFrom s1 0 (respLabel c) p.1 hlk
        have hc : Char.ofNat (65 + (0 + j)) = c := labelKey_eq_respLabel h1.symm
        have hup : isUpr (Char.ofNat (65 + (0 + j))) = true := by rw [hc]; exact hcup
        have hrange := isUpr_charOfNat hup
        rw [hp1] at h2
        have h26 : 26 ≤ j := hm ⟨j, hj⟩ h2
        omega

/-- C10 witness: 27 Stage 1 entries with `"onlyLate"` only at index 26;
it never appears in the aggregate ranking. -/
theorem c10_witness :
    "onlyLate" ∉ ((calculate_aggregate_rankings
        (stage2_collect_rankings exStage1Long ["r1"] envRankA).1
        (stage2_collect_rankings exStage1Long ["r1"] envRankA).2).map (·.model)) :=
  (c10_late_labels_never_ranked exStage1Long ["r1"] envRankA "onlyLate" (by decide)).2

end Council
